import Mathlib

/-!
Shallow embedding of `ast2vec/repo2base.py` (class `Repo2Base`): the
identifier tokenizer (`_split`, `_stem`, `_process_token`), the concurrent
UAST fetch pipeline (`uast_generator` inside `convert_repository`), and the
temporary-directory handling of `convert_repository`.

Words and identifiers are `List Char`; maps preserve Python dict insertion
order, so a classification mapping is an association list.
-/

set_option autoImplicit false

namespace Repo2Base

/-- `MAX_TOKEN_LENGTH = 256`: identifiers longer than this are cut. -/
def MAX_TOKEN_LENGTH : Nat := 256

/-- `STEM_THRESHOLD = 6`: parts shorter than or equal to this are not stemmed. -/
def STEM_THRESHOLD : Nat := 6

/-- `MAX_FILE_SIZE = 200000`. -/
def MAX_FILE_SIZE : Nat := 200000

/-- Shorthand: the characters of a string literal. -/
def strL (s : String) : List Char := s.data

/-- The whitespace characters removed by Python `str.strip()` (ASCII part). -/
def isPySpace (c : Char) : Bool :=
  c = ' ' || c = '\t' || c = '\n' || c = '\x0d' || c = '\x0b' || c = '\x0c'

/-- Python `token.strip()`: drop whitespace from both ends. -/
def pyStrip (l : List Char) : List Char :=
  ((l.dropWhile isPySpace).reverse.dropWhile isPySpace).reverse

/-- `NAME_BREAKUP_RE = re.compile(r"[^a-zA-Z]+")` together with the
`if not part: continue` filter in `_split`: the maximal runs of ASCII
letters of the input, in order (non-letters are hard separators, empty
fragments are discarded). `Char.isAlpha` is exactly `[a-zA-Z]`. -/
def nameBreakup : List Char → List Char → List (List Char)
  | [], acc => if acc.isEmpty then [] else [acc.reverse]
  | c :: cs, acc =>
      if c.isAlpha then nameBreakup cs (c :: acc)
      else (if acc.isEmpty then [] else [acc.reverse]) ++ nameBreakup cs []

/-- Python `part[a:b]` for `a ≤ b ≤ part.length`. -/
def slice (l : List Char) (a b : Nat) : List Char := (l.take b).drop a

/-- One iteration of the camel-case scanning loop of `_split`
(`for i in range(1, len(part))`), acting on the state `(emitted, pos)`.
`part.getD (i-1)` is `prev` and `part.getD i` is `this`. -/
def camelStep (part : List Char) (st : List (List Char) × Nat) (i : Nat) :
    List (List Char) × Nat :=
  let prev := part.getD (i - 1) ' '
  let this := part.getD i ' '
  if prev.isLower && this.isUpper then
    (st.1 ++ [slice part st.2 i], i)
  else if prev.isUpper && this.isLower then
    if 0 < i - 1 - st.2 ∧ i - 1 - st.2 ≤ 3 then
      (st.1 ++ [slice part st.2 (i - 1)], i - 1)
    else if st.2 < i - 1 then
      (st.1 ++ [slice part st.2 i], i)
    else st
  else st

/-- The raw sub-words `_split` produces from one alphabetic fragment:
the case-transition loop followed by the trailing `last = part[pos:]`
(emitted when non-empty). -/
def camelParts (part : List Char) : List (List Char) :=
  let st := (List.range' 1 (part.length - 1)).foldl (camelStep part) ([], 0)
  let last := part.drop st.2
  st.1 ++ (if last.isEmpty then [] else [last])

/-- The inner `ret(name)` of `_split`, acting on the held short fragment
`prev_p[0]`: returns the yielded tokens and the new held fragment.
A sub-word of length `≥ 3` is lowercased and yielded; if a fragment is
held it is prefixed onto it, also yielded, and cleared. A sub-word of
length `< 3` is yielded nowhere and becomes the held fragment. -/
def retStep (prevP : List Char) (name : List Char) : List (List Char) × List Char :=
  let r := name.map Char.toLower
  if 3 ≤ name.length then
    if prevP.isEmpty then ([r], prevP) else ([r, prevP ++ r], [])
  else ([], r)

/-- Runs `ret` over the stream of raw sub-words; the held fragment
persists across fragments and is dropped at end of input. -/
def processParts (prevP : List Char) : List (List Char) → List (List Char)
  | [] => []
  | n :: ns =>
      let s := retStep prevP n
      s.1 ++ processParts s.2 ns

/-- `Repo2Base._split(token)`: strip, truncate to `MAX_TOKEN_LENGTH`,
break on non-letters, scan each fragment for case transitions, and pass
every raw sub-word through `ret`. -/
def splitId (token : List Char) : List (List Char) :=
  let t := (pyStrip token).take MAX_TOKEN_LENGTH
  processParts [] ((nameBreakup t []).flatMap camelParts)

/-- `Repo2Base._stem(word)`: words of length `≤ STEM_THRESHOLD` are
returned unchanged, longer words go to the external Snowball stemmer,
modelled by the function argument `stemWord`. -/
def stem (stemWord : List Char → List Char) (word : List Char) : List Char :=
  if word.length ≤ STEM_THRESHOLD then word else stemWord word

/-- `_stem` instrumented with the list of words actually handed to the
external stemmer. -/
def stemInstr (stemWord : List Char → List Char) (word : List Char) :
    List Char × List (List Char) :=
  if word.length ≤ STEM_THRESHOLD then (word, []) else (stemWord word, [word])

/-- `Repo2Base._process_token(token)`: stem every word of `_split(token)`. -/
def processToken (stemWord : List Char → List Char) (token : List Char) :
    List (List Char) :=
  (splitId token).map (stem stemWord)

/-! The concurrent UAST fetch pipeline of `convert_repository` /
`uast_generator`. The threads race only on the two queues; every task is
consumed by exactly one worker and produces exactly one outcome on the
result queue, so the counts and per-task data flow the claims are about
are deterministic and are modelled by explicit task/outcome lists.
`U` is the opaque type of parsed UASTs. -/

/-- The filesystem facts a worker consults: `os.path.islink`,
`os.readlink` and `os.stat(...).st_size`. -/
structure FileSys where
  islink : String → Bool
  readlink : String → String
  statSize : String → Nat

/-- The symlink check at the top of `thread_loop`:
`if os.path.islink(filename): filename = os.readlink(filename)`. -/
def resolveLink (fs : FileSys) (filename : String) : String :=
  if fs.islink filename then fs.readlink filename else filename

/-- One worker iteration of `thread_loop` on one task `(filename, language)`:
resolve a symlink, skip (null outcome) when the file is too big, otherwise
call `parse_uast` — whose `None` result (timeout) is put on the result
queue as-is, and any exception also ends in a null outcome, both folded
into the `Option` result of `parse`. The second component records the
filenames handed to the parser client. -/
def processTask {U : Type} (fs : FileSys) (parse : String → String → Option U)
    (task : String × String) : Option U × List String :=
  let filename := resolveLink fs task.1
  if MAX_FILE_SIZE < fs.statSize filename then (none, [])
  else (parse filename task.2, [filename])

/-- `lang_list = ("Python", "Java")`: the hardcoded language allow-list. -/
def langList : List String := ["Python", "Java"]

/-- `os.path.join(target_dir, f)` for a relative `f`. -/
def pathJoin (a b : String) : String := a ++ "/" ++ b

/-- The tasks one entry `(lang, files)` of the classification mapping
contributes: skipped entirely when `lang` is not allow-listed, otherwise
one task per file. -/
def dispatchEntry (targetDir : String) (entry : String × List String) :
    List (String × String) :=
  if entry.1 ∈ langList then
    entry.2.map (fun f => (pathJoin targetDir f, entry.1))
  else []

/-- The dispatch loop of `uast_generator`: walk the classification mapping
in order and enqueue the allow-listed tasks; `tasks` (the pending count)
ends up as the length of this list. -/
def dispatch (classified : List (String × List String)) (targetDir : String) :
    List (String × String) :=
  classified.flatMap (dispatchEntry targetDir)

/-- The collector loop `while tasks > 0`: read one outcome from the result
queue, yield it when non-null, decrement the count; the loop exits when
the count reaches zero, never by inspecting the queue. Returns the yielded
results and the part of the queue left unread. (With a positive count and
an empty queue the real loop blocks; that case is unreachable in
`uastGenerator`, which supplies one outcome per task.) -/
def collectorLoop {U : Type} : Nat → List (Option U) → List U × List (Option U)
  | 0, q => ([], q)
  | _ + 1, [] => ([], [])
  | t + 1, o :: rest =>
      let s := collectorLoop t rest
      (match o with
       | some u => u :: s.1
       | none => s.1, s.2)

/-- `uast_generator`: dispatch the allow-listed tasks, let the workers turn
each task into exactly one outcome, and run the collector for exactly that
many outcomes. -/
def uastGenerator {U : Type} (fs : FileSys) (parse : String → String → Option U)
    (classified : List (String × List String)) (targetDir : String) : List U :=
  let tasks := dispatch classified targetDir
  let outcomes := tasks.map (fun t => (processTask fs parse t).1)
  (collectorLoop tasks.length outcomes).1

/-! `convert_repository`'s acquisition and cleanup logic, with the
filesystem's directories as explicit state. `mkdtemp` freshness is a
hypothesis on the supplied fresh name; the clone subprocess and the
later stages (`_classify_files` + `convert_uasts`) succeed or raise
according to the `cloneOk` / `laterOk` parameters. -/

/-- The directories existing on disk. -/
structure World where
  dirs : List String

/-- `os.path.exists`. -/
def pathExists (w : World) (p : String) : Bool := w.dirs.contains p

/-- `tempfile.mkdtemp`: create the fresh directory. -/
def mkdtemp (w : World) (fresh : String) : World := ⟨fresh :: w.dirs⟩

/-- `shutil.rmtree`: remove the directory. -/
def rmtree (w : World) (d : String) : World := ⟨w.dirs.filter (fun x => x != d)⟩

/-- `Repo2Base.convert_repository(url_or_path)`, control flow and directory
effects: when the argument exists it is used in place (`temp = False`);
otherwise a fresh temporary directory is created and `git clone` runs,
with the `except` clause removing the directory before re-raising; the
body's `try ... finally` removes the directory on every exit (normal
return or an exception in the later stages) exactly when `temp` is true.
Returns the outcome (`Except` models raising) and the final world. -/
def convertRepository (w : World) (urlOrPath fresh : String)
    (cloneOk laterOk : Bool) : Except Unit Unit × World :=
  let temp := !pathExists w urlOrPath
  if temp then
    let w1 := mkdtemp w fresh
    if cloneOk then
      let res : Except Unit Unit := if laterOk then .ok () else .error ()
      (res, rmtree w1 fresh)
    else
      (.error (), rmtree w1 fresh)
  else
    let res : Except Unit Unit := if laterOk then .ok () else .error ()
    (res, w)

/-- A concrete filesystem on which every file is a regular file larger
than `MAX_FILE_SIZE`. -/
def fsBig : FileSys :=
  { islink := fun _ => false, readlink := fun p => p, statSize := fun _ => 200001 }

end Repo2Base

namespace Repo2Base

/-- An upper-case basic latin letter is not a lower-case one. -/
theorem isUpper_isLower_false {c : Char} (h : c.isUpper = true) :
    c.isLower = false := by
  rw [Char.isUpper, Bool.and_eq_true] at h
  have h90 : c.val ≤ 90 := of_decide_eq_true h.2
  have h97 : ¬ ((97 : UInt32) ≤ c.val) :=
    fun hc => absurd (UInt32.le_trans hc h90) (by decide)
  simp [Char.isLower, ge_iff_le, h97]

/-- `nameBreakup` with an empty accumulator yields nothing on input with
no letters. -/
theorem nameBreakup_no_alpha : ∀ (l : List Char), (∀ c ∈ l, c.isAlpha = false) →
    nameBreakup l [] = [] := by
  intro l
  induction l with
  | nil => intro _; rfl
  | cons c cs ih =>
      intro h
      have hc : c.isAlpha = false := h c (List.mem_cons_self c cs)
      simp only [nameBreakup, hc, Bool.false_eq_true, if_false, List.isEmpty_nil,
        if_true, List.nil_append]
      exact ih fun d hd => h d (List.mem_cons_of_mem c hd)

/-- The collector consumes exactly as many outcomes as its initial count,
keeping the non-null ones, and leaves the rest of the queue unread. -/
theorem collectorLoop_spec {U : Type} : ∀ (xs extra : List (Option U)),
    collectorLoop xs.length (xs ++ extra) = (xs.filterMap id, extra) := by
  intro xs
  induction xs with
  | nil => intro extra; rfl
  | cons o rest ih =>
      intro extra
      cases o <;> simp [collectorLoop, ih extra, List.filterMap_cons]

/-- Removing an absent directory changes nothing. -/
theorem rmtree_absent (w : World) (d : String) (h : w.dirs.contains d = false) :
    rmtree w d = w := by
  have hd : d ∉ w.dirs := by
    intro hm
    have he := List.elem_eq_true_of_mem hm
    rw [show w.dirs.contains d = List.elem d w.dirs from rfl, he] at h
    exact absurd h (by decide)
  unfold rmtree
  have hf : w.dirs.filter (fun x => x != d) = w.dirs :=
    List.filter_eq_self.mpr fun a ha => bne_iff_ne.mpr fun he => hd (he ▸ ha)
  rw [hf]

end Repo2Base

namespace Repo2Base

/-- C1: every raw sub-word of length ≥ 3 is lowercased and yielded; when a
short fragment is held it is prefixed onto that sub-word and yielded as a
second token, clearing the hold; a sub-word of length < 3 is not yielded
but becomes the held fragment; a fragment still held at end of input
produces nothing; the fragments "a", "Setting" produce exactly "setting"
and "asetting". -/
theorem c1_short_fragment_hold :
    (∀ (p n : List Char), 3 ≤ n.length → p = [] →
      retStep p n = ([n.map Char.toLower], [])) ∧
    (∀ (p n : List Char), 3 ≤ n.length → p ≠ [] →
      retStep p n = ([n.map Char.toLower, p ++ n.map Char.toLower], [])) ∧
    (∀ (p n : List Char), n.length < 3 →
      retStep p n = ([], n.map Char.toLower)) ∧
    (∀ (p : List Char), processParts p [] = []) ∧
    processParts [] [strL "a", strL "Setting"] = [strL "setting", strL "asetting"] := by
  refine ⟨?_, ?_, ?_, ?_, by decide⟩
  · intro p n h hp
    subst hp
    simp [retStep, h]
  · intro p n h hp
    simp [retStep, h, List.isEmpty_iff, hp]
  · intro p n h
    simp [retStep, Nat.not_le.mpr h]
  · intro p
    rfl

/-- C1 witness: the held fragment "kb" is consumed by "Setting". -/
theorem c1_witness :
    retStep (strL "kb") (strL "Setting") = ([strL "setting", strL "kbsetting"], []) := by
  have h := c1_short_fragment_hold.2.1 (strL "kb") (strL "Setting") (by decide) (by decide)
  exact h.trans (by decide)

/-- C2: at a lower→UPPER transition at `i` the scanner emits `[pos, i)` and
continues from `i`; at an UPPER→lower transition with acronym run
`i - 1 - pos` between 1 and 3 it emits `[pos, i - 1)` and restarts at
`i - 1`, and with a run longer than 3 it emits `[pos, i)` and restarts at
`i`; `split("XMLParserV2")` separates the acronym "XML" from "Parser". -/
theorem c2_case_transitions :
    (∀ (part : List Char) (acc : List (List Char)) (pos i : Nat),
      ((part.getD (i - 1) ' ').isLower && (part.getD i ' ').isUpper) = true →
      camelStep part (acc, pos) i = (acc ++ [slice part pos i], i)) ∧
    (∀ (part : List Char) (acc : List (List Char)) (pos i : Nat),
      ((part.getD (i - 1) ' ').isUpper && (part.getD i ' ').isLower) = true →
      1 ≤ i - 1 - pos → i - 1 - pos ≤ 3 →
      camelStep part (acc, pos) i = (acc ++ [slice part pos (i - 1)], i - 1)) ∧
    (∀ (part : List Char) (acc : List (List Char)) (pos i : Nat),
      ((part.getD (i - 1) ' ').isUpper && (part.getD i ' ').isLower) = true →
      3 < i - 1 - pos →
      camelStep part (acc, pos) i = (acc ++ [slice part pos i], i)) ∧
    splitId (strL "XMLParserV2") = [strL "xml", strL "parser"] := by
  refine ⟨?_, ?_, ?_, by decide⟩
  · intro part acc pos i h
    simp only [camelStep]
    rw [if_pos h]
  · intro part acc pos i h h1 h3
    rw [Bool.and_eq_true] at h
    obtain ⟨hu, hl⟩ := h
    have hnl := isUpper_isLower_false hu
    simp only [camelStep]
    rw [if_neg (by rw [hnl]; simp), if_pos (by rw [hu, hl]; rfl),
      if_pos (And.intro (by omega : 0 < i - 1 - pos) h3)]
  · intro part acc pos i h h3
    rw [Bool.and_eq_true] at h
    obtain ⟨hu, hl⟩ := h
    have hnl := isUpper_isLower_false hu
    simp only [camelStep]
    rw [if_neg (by rw [hnl]; simp), if_pos (by rw [hu, hl]; rfl),
      if_neg (by omega : ¬ (0 < i - 1 - pos ∧ i - 1 - pos ≤ 3)),
      if_pos (by omega : pos < i - 1)]

/-- C2 witness: the UPPER→lower rule with a run of length 1 on "ABc". -/
theorem c2_witness : camelStep (strL "ABc") ([], 0) 2 = ([strL "A"], 1) := by
  have h := c2_case_transitions.2.1 (strL "ABc") [] 0 2 (by decide) (by decide) (by decide)
  exact h.trans (by decide)

/-- C3 counterexample: splitting and stemming "httpServerMaxSizeKB" yields
only "http", "server", "max", "size" — the trailing sub-word "KB" has
length 2, is held, and is dropped at end of input, so no "kb" token is
produced, contrary to the claim. -/
theorem c3_counterexample :
    processToken (fun w => w) (strL "httpServerMaxSizeKB") =
      [strL "http", strL "server", strL "max", strL "size"] ∧
    strL "kb" ∉ processToken (fun w => w) (strL "httpServerMaxSizeKB") := by
  constructor
  · decide
  · decide

/-- C3 amended: for every stemmer, splitting and stemming
"httpServerMaxSizeKB" yields exactly "http", "server", "max", "size" in
that order (all of length ≤ 6, hence unstemmed); the trailing "KB" is held
as a short fragment and produces no token. -/
theorem c3_amended_tokens (stemWord : List Char → List Char) :
    processToken stemWord (strL "httpServerMaxSizeKB") =
      [strL "http", strL "server", strL "max", strL "size"] := rfl

end Repo2Base

namespace Repo2Base

/-- C4: for a classification mapping with `n` allow-listed files the
pipeline produces exactly `n` outcomes (one per dispatched task); the
collector reads exactly `n` outcomes from the result queue — decrementing
its pending count once per read — leaving anything beyond them unread,
terminates exactly when the count reaches zero (even on a non-empty
queue), and yields at most `n` non-null outcomes to the caller. -/
theorem c4_collector_accounting {U : Type} (fs : FileSys)
    (parse : String → String → Option U)
    (classified : List (String × List String)) (targetDir : String)
    (extra : List (Option U)) :
    let tasks := dispatch classified targetDir
    let outcomes := tasks.map (fun t => (processTask fs parse t).1)
    outcomes.length = tasks.length ∧
    collectorLoop tasks.length (outcomes ++ extra) = (outcomes.filterMap id, extra) ∧
    (∀ q : List (Option U), collectorLoop 0 q = ([], q)) ∧
    (uastGenerator fs parse classified targetDir).length ≤ tasks.length := by
  intro tasks outcomes
  have hlen : outcomes.length = tasks.length := List.length_map _ _
  refine ⟨hlen, ?_, fun q => rfl, ?_⟩
  · rw [← hlen]
    exact collectorLoop_spec outcomes extra
  · show (collectorLoop tasks.length outcomes).1.length ≤ tasks.length
    have h0 := collectorLoop_spec outcomes []
    rw [List.append_nil, hlen] at h0
    rw [h0]
    exact le_trans (List.length_filterMap_le _ _) (le_of_eq hlen)

/-- C5: a task whose resolved file size exceeds `MAX_FILE_SIZE` produces a
null outcome and the parser client is never invoked for it. -/
theorem c5_oversize_no_parse {U : Type} (fs : FileSys)
    (parse : String → String → Option U) (task : String × String)
    (h : MAX_FILE_SIZE < fs.statSize (resolveLink fs task.1)) :
    processTask fs parse task = (none, []) := by
  simp [processTask, h]

/-- C5 witness: on a filesystem where files have size 200001 the worker
emits a null outcome and calls the parser on no file. -/
theorem c5_witness :
    processTask fsBig (fun _ _ => (none : Option Nat)) ("a.py", "Python") = (none, []) :=
  c5_oversize_no_parse fsBig (fun _ _ => none) ("a.py", "Python") (by decide)

/-- C6: the allow-list is exactly ("Python", "Java"); an allow-listed
entry contributes exactly one task per file, any other entry contributes
none, and an empty classification mapping produces an empty outcome
sequence. -/
theorem c6_dispatch_allowlist (targetDir : String) :
    langList = ["Python", "Java"] ∧
    (∀ (lang : String) (files : List String), lang ∈ langList →
      dispatchEntry targetDir (lang, files) =
        files.map (fun f => (pathJoin targetDir f, lang)) ∧
      (dispatchEntry targetDir (lang, files)).length = files.length) ∧
    (∀ (lang : String) (files : List String), lang ∉ langList →
      dispatchEntry targetDir (lang, files) = []) ∧
    (∀ (U : Type) (fs : FileSys) (parse : String → String → Option U),
      uastGenerator fs parse [] targetDir = []) := by
  refine ⟨rfl, ?_, ?_, fun U fs parse => rfl⟩
  · intro lang files h
    constructor
    · simp [dispatchEntry, h]
    · simp [dispatchEntry, h]
  · intro lang files h
    simp [dispatchEntry, h]

/-- C6 witness: a "Python" entry yields one task per file, a "C" entry
yields none. -/
theorem c6_witness :
    dispatchEntry "repo" ("Python", ["a.py", "b.py"]) =
      [("repo/a.py", "Python"), ("repo/b.py", "Python")] ∧
    dispatchEntry "repo" ("C", ["x.c"]) = [] := by
  constructor
  · have h := ((c6_dispatch_allowlist "repo").2.1 "Python" ["a.py", "b.py"]
      (by decide)).1
    exact h.trans (by decide)
  · exact (c6_dispatch_allowlist "repo").2.2.1 "C" ["x.c"] (by decide)

/-- C7: `_stem` returns every word of length ≤ 6 unchanged, agrees with its
instrumented version, and the external stemmer is invoked only on words
strictly longer than 6. -/
theorem c7_stem_threshold :
    (∀ (stemWord : List Char → List Char) (w : List Char),
      w.length ≤ STEM_THRESHOLD → stem stemWord w = w) ∧
    (∀ (stemWord : List Char → List Char) (w : List Char),
      (stemInstr stemWord w).1 = stem stemWord w) ∧
    (∀ (stemWord : List Char → List Char) (w u : List Char),
      u ∈ (stemInstr stemWord w).2 → STEM_THRESHOLD < u.length) := by
  refine ⟨?_, ?_, ?_⟩
  · intro f w h
    simp [stem, h]
  · intro f w
    by_cases h : w.length ≤ STEM_THRESHOLD <;> simp [stem, stemInstr, h]
  · intro f w u hu
    by_cases h : w.length ≤ STEM_THRESHOLD
    · simp [stemInstr, h] at hu
    · simp [stemInstr, h] at hu
      subst hu
      exact Nat.lt_of_not_le h

/-- C7 witness: "server" (length 6) passes through `_stem` unchanged. -/
theorem c7_witness : stem (fun w => w) (strL "server") = strL "server" :=
  c7_stem_threshold.1 (fun w => w) (strL "server") (by decide)

/-- C8 counterexample: on the sub-word stream "ab", "cd", "efg" the held
fragment "ab" is overwritten by "cd" while still unconsumed mid-sequence
(the `ret` step for "cd" yields nothing and replaces the held "ab"), and
"ab" surfaces in no token of the full split — refuting the claim that a
held fragment is never replaced while unconsumed mid-sequence. -/
theorem c8_counterexample :
    retStep (strL "ab") (strL "cd") = ([], strL "cd") ∧
    splitId (strL "ab cd efg") = [strL "efg", strL "cdefg"] ∧
    (splitId (strL "ab cd efg")).all (fun t => t.take 2 ≠ strL "ab") = true := by
  refine ⟨by decide, by decide, by decide⟩

/-- C8 amended: at most one short fragment is held at a time (the hold
state is a single word), but a newly emitted short fragment overwrites the
held state unconditionally — even when the previously held fragment has
not been consumed, in which case that fragment is silently dropped; a
qualifying (length ≥ 3) sub-word always clears the hold. -/
theorem c8_hold_overwrite :
    (∀ (p n : List Char), n.length < 3 → retStep p n = ([], n.map Char.toLower)) ∧
    (∀ (p n : List Char), 3 ≤ n.length → (retStep p n).2 = []) := by
  constructor
  · intro p n h
    simp [retStep, Nat.not_le.mpr h]
  · intro p n h
    by_cases hp : p.isEmpty <;> simp_all [retStep, List.isEmpty_iff]

/-- C8 amended witness: the unconsumed held "ab" is overwritten by "cd". -/
theorem c8_witness : retStep (strL "ab") (strL "cd") = ([], strL "cd") := by
  have h := c8_hold_overwrite.1 (strL "ab") (strL "cd") (by decide)
  exact h.trans (by decide)

/-- C9: an identifier consisting only of non-alphabetic (delimiter)
characters splits into the empty token sequence. -/
theorem c9_delimiters_only (s : List Char) (h : ∀ c ∈ s, c.isAlpha = false) :
    splitId s = [] := by
  have hsub : ∀ c ∈ (pyStrip s).take MAX_TOKEN_LENGTH, c ∈ s := by
    intro c hc
    have h1 : c ∈ pyStrip s := (List.take_sublist _ _).subset hc
    unfold pyStrip at h1
    rw [List.mem_reverse] at h1
    have h2 := (List.dropWhile_sublist _).subset h1
    rw [List.mem_reverse] at h2
    exact (List.dropWhile_sublist _).subset h2
  have hb : nameBreakup ((pyStrip s).take MAX_TOKEN_LENGTH) [] = [] :=
    nameBreakup_no_alpha _ fun c hc => h c (hsub c hc)
  show processParts []
    ((nameBreakup ((pyStrip s).take MAX_TOKEN_LENGTH) []).flatMap camelParts) = []
  rw [hb]
  rfl

/-- C9 witness: "123__45!" splits into no tokens. -/
theorem c9_witness : splitId (strL "123__45!") = [] :=
  c9_delimiters_only (strL "123__45!") (by decide)

/-- C10: `convert_repository` removes a directory iff it created one: an
already-existing argument directory is used in place and survives every
exit path untouched, while for a non-existing argument (a URL) the fresh
temporary clone directory is gone — and the world unchanged — on every
exit path: clone failure, a later-stage exception, and normal
completion. -/
theorem c10_tempdir_cleanup (w : World) (urlOrPath fresh : String)
    (cloneOk laterOk : Bool) :
    (pathExists w urlOrPath = true →
      (convertRepository w urlOrPath fresh cloneOk laterOk).2 = w) ∧
    (pathExists w urlOrPath = false → pathExists w fresh = false →
      (convertRepository w urlOrPath fresh cloneOk laterOk).2 = w ∧
      pathExists (convertRepository w urlOrPath fresh cloneOk laterOk).2 fresh
        = false) := by
  constructor
  · intro h
    simp [convertRepository, h]
  · intro h hfresh
    have hw : rmtree (mkdtemp w fresh) fresh = w := by
      have h2 := rmtree_absent w fresh hfresh
      show World.mk ((fresh :: w.dirs).filter (fun x => x != fresh)) = w
      rw [List.filter_cons, if_neg (by simp)]
      exact h2
    have hfin : (convertRepository w urlOrPath fresh cloneOk laterOk).2 = w := by
      unfold convertRepository
      simp only [h, Bool.not_false, if_true]
      cases cloneOk <;> simp [hw]
    refine ⟨hfin, ?_⟩
    rw [hfin]
    exact hfresh

/-- C10 witness: an existing directory survives a later-stage failure; a
cloned temporary directory is removed when the clone fails. -/
theorem c10_witness :
    (convertRepository ⟨["repo"]⟩ "repo" "tmp" true false).2 = ⟨["repo"]⟩ ∧
    (convertRepository ⟨["repo"]⟩ "url" "tmp" false true).2 = ⟨["repo"]⟩ := by
  constructor
  · exact (c10_tempdir_cleanup ⟨["repo"]⟩ "repo" "tmp" true false).1 (by decide)
  · exact ((c10_tempdir_cleanup ⟨["repo"]⟩ "url" "tmp" false true).2
      (by decide) (by decide)).1

end Repo2Base
